import Mathlib

/-!
Shallow embedding of the `macro_pub` repository (CAD97/macro_pub).

The repository has two source files:

* `src/lib.rs` — the proc-macro attribute `macro_pub(attr, item)`, a
  token-stream-to-token-stream rewriter for `macro_rules!` definitions;
* `build.rs` — a vendored `autocfg` capability prober that decides, by
  invoking the host compiler, whether the `has_simple_decl_macro` cfg flag
  is emitted.

Token streams are embedded as lists of token trees mirroring
`proc_macro::TokenTree` (identifier, punctuation with spacing, literal,
delimited group).  The external `xxh3_128` hash is a black box
`String → Nat` parameter; the serialization `item.to_string()` is modelled
by `serializeTrees`.  The prober's compiler subprocess is a black box
`String → Option Bool` (`Option.none` models a spawn/wait error, `some b`
the exit status), and environment variables are explicit `Option` inputs.
-/

namespace MacroPub

/-- Mirror of `proc_macro::Delimiter`. -/
inductive Delimiter where
  | parenthesis
  | brace
  | bracket
  | none
deriving DecidableEq

/-- Mirror of `proc_macro::Spacing` attached to punctuation tokens. -/
inductive Spacing where
  | alone
  | joint
deriving DecidableEq

/-- Mirror of `proc_macro::TokenTree`: identifier, punctuation, literal, or
delimited group.  Spans are not semantically inspected by the rewriter and
are omitted. -/
inductive TokenTree where
  | ident (s : String)
  | punct (c : Char) (sp : Spacing)
  | literal (s : String)
  | group (d : Delimiter) (ts : List TokenTree)

/-- Opening text of a delimiter (a `Delimiter.none` group is invisible). -/
def delimOpen : Delimiter → String
  | .parenthesis => "("
  | .brace => "\x7b"
  | .bracket => "["
  | .none => ""

/-- Closing text of a delimiter. -/
def delimClose : Delimiter → String
  | .parenthesis => ")"
  | .brace => "\x7d"
  | .bracket => "]"
  | .none => ""

mutual

/-- Model of rendering one token tree to text, used by
`item.to_string()` in `lib.rs` line 132 before hashing. -/
def serializeTree : TokenTree → String
  | .ident s => s
  | .punct c _ => String.singleton c
  | .literal s => s
  | .group d ts => delimOpen d ++ serializeTrees ts ++ delimClose d

/-- Model of rendering a token stream to text (tokens separated by
whitespace), the serialization fed to the `xxh3_128` black box. -/
def serializeTrees : List TokenTree → String
  | [] => ""
  | t :: ts => serializeTree t ++ " " ++ serializeTrees ts

end

/-- Token stream of
`compile_error! { "`#[macro_pub]` must be used on a `macro_rules!` macro" }`,
the fixed error marker parsed and appended on parse failure
(`lib.rs` lines 133-141). -/
def errorMarker : List TokenTree :=
  [.ident "compile_error", .punct '!' .alone,
   .group .brace [.literal "\"`#[macro_pub]` must be used on a `macro_rules!` macro\""]]

/-- Token stream of `#[cfg(doc)] #[rustc_macro_transparency = "semitransparent"]`
parsed at `lib.rs` lines 204-208. -/
def cfgDocAttrs : List TokenTree :=
  [.punct '#' .alone,
   .group .bracket [.ident "cfg", .group .parenthesis [.ident "doc"]],
   .punct '#' .alone,
   .group .bracket [.ident "rustc_macro_transparency", .punct '=' .alone,
                    .literal "\"semitransparent\""]]

/-- Token stream of `#[cfg(not(doc))]` parsed at `lib.rs` lines 228 and 250. -/
def cfgNotDocAttrs : List TokenTree :=
  [.punct '#' .alone,
   .group .bracket [.ident "cfg",
     .group .parenthesis [.ident "not", .group .parenthesis [.ident "doc"]]]]

/-- Token stream of `#[macro_export] #[doc(hidden)]` parsed at
`lib.rs` lines 232-236. -/
def macroExportAttrs : List TokenTree :=
  [.punct '#' .alone,
   .group .bracket [.ident "macro_export"],
   .punct '#' .alone,
   .group .bracket [.ident "doc", .group .parenthesis [.ident "hidden"]]]

/-- Parsed view of the annotated item (`lib.rs` lines 143-175): the leading
attribute tokens collected verbatim, the spacing of the `!` after
`macro_rules`, the macro's name, the brace-delimited arms stream, and the
tokens left in the iterator after the arms group. -/
structure MacroDefinition where
  attrs : List TokenTree
  bangSp : Spacing
  name : String
  arms : List TokenTree
  trailing : List TokenTree

/-- Model of the attribute-collecting loop, `lib.rs` lines 146-160: scan the
item, accumulating `#` `[...]` pairs into `attrs`, until the identifier
`macro_rules` is found (success, returning the accumulated attributes and the
remaining tokens) or anything else is seen (failure). -/
def collectAttrs : List TokenTree → List TokenTree → Option (List TokenTree × List TokenTree)
  | acc, .ident s :: rest =>
    if s = "macro_rules" then some (acc, rest) else Option.none
  | acc, .punct '#' sp :: .group .bracket g :: rest =>
    collectAttrs (acc ++ [.punct '#' sp, .group .bracket g]) rest
  | _, _ => Option.none

/-- Model of the whole parsing phase, `lib.rs` lines 143-175: after the
attribute loop, the next tokens must be, in strict order, a `!` punctuation
(line 162-165), a name identifier (lines 167-170), and a brace-delimited
group holding the arms (lines 172-175).  Any deviation is a parse failure,
modelled as `Option.none`. -/
def parseItem (item : List TokenTree) : Option MacroDefinition :=
  match collectAttrs [] item with
  | some (attrs, .punct '!' sp :: .ident nm :: .group .brace arms :: trailing) =>
    some ⟨attrs, sp, nm, arms, trailing⟩
  | _ => Option.none

/-- The per-token map of the arm-separator rewrite (`lib.rs` lines
218-223): a `;` punctuation becomes `,` with its spacing preserved; every
other token is passed through unchanged. -/
def semiToComma : TokenTree → TokenTree
  | .punct ';' sp => .punct ',' sp
  | t => t

/-- Model of the arm-separator rewrite in the `#[cfg(doc)]` branch,
`lib.rs` lines 216-224: `semiToComma` mapped over the top-level tokens of
the arms stream. -/
def rewriteSemis (ts : List TokenTree) : List TokenTree :=
  ts.map semiToComma

/-- Model of `lib.rs` lines 196-199: the internal fingerprinted identifier
`macro_impl_<hash>_<name>`, with the hash printed in decimal. -/
def macroRulesName (hash : Nat) (nm : String) : TokenTree :=
  .ident ("macro_impl_" ++ Nat.repr hash ++ "_" ++ nm)

/-- Model of the proc-macro attribute `macro_pub` (`lib.rs` lines 130-268).

`hash128` is the black-box `xxh3_128` hash applied to the serialized item
(line 132), and `capabilityFlag` is the compile-time constant
`cfg!(has_simple_decl_macro)` (line 131).  On parse failure the original
item is returned with `errorMarker` appended.  On success the output is
assembled in the source's emission order: the collected attributes
(line 201); when the flag is set and the visibility is the default, the
`#[cfg(doc)]` macros-2.0 variant with rewritten arm separators followed by
the attributes again and `#[cfg(not(doc))]` (lines 203-229); then
`#[macro_export] #[doc(hidden)]` when the visibility is the default
(lines 231-237); the `macro_rules!` redeclaration under the fingerprinted
name (default) or the original name (restricted) with the arms verbatim
(lines 238-247); `#[cfg(not(doc))]` again in the doc-capable default path
(lines 249-251); the `pub`/`pub(<attr>)` `use ... as ...;` re-export
(lines 253-264); and finally the trailing tokens (line 265). -/
def macro_pub (hash128 : String → Nat) (capabilityFlag : Bool)
    (attr item : List TokenTree) : List TokenTree :=
  let hash := hash128 (serializeTrees item)
  let error_output := item ++ errorMarker
  match parseItem item with
  | Option.none => error_output
  | some pm =>
    let visNeed : List TokenTree × Bool :=
      if attr.isEmpty then ([.ident "pub"], true)
      else ([.ident "pub", .group .parenthesis attr], false)
    let vis := visNeed.1
    let need_macro_export := visNeed.2
    let implName := macroRulesName hash pm.name
    pm.attrs
      ++ (if capabilityFlag && need_macro_export then
            cfgDocAttrs ++ vis
              ++ [.ident "macro", .ident pm.name,
                  .group .brace (rewriteSemis pm.arms)]
              ++ pm.attrs ++ cfgNotDocAttrs
          else [])
      ++ (if need_macro_export then macroExportAttrs else [])
      ++ [.ident "macro_rules", .punct '!' pm.bangSp,
          (if need_macro_export then implName else .ident pm.name),
          .group .brace pm.arms]
      ++ (if capabilityFlag && need_macro_export then cfgNotDocAttrs else [])
      ++ vis
      ++ [.ident "use",
          (if need_macro_export then implName else .ident pm.name),
          .ident "as", .ident pm.name, .punct ';' .alone]
      ++ pm.trailing

mutual

/-- Whether a token tree contains the identifier `s` at any nesting depth. -/
def mentionsIdent (s : String) : TokenTree → Bool
  | .ident t => t == s
  | .group _ ts => mentionsIdentList s ts
  | _ => false

/-- Whether a token stream contains the identifier `s` at any nesting depth. -/
def mentionsIdentList (s : String) : List TokenTree → Bool
  | [] => false
  | t :: ts => mentionsIdent s t || mentionsIdentList s ts

end

/-! Model of `build.rs` (the vendored autocfg capability prober). -/

/-- The ASCII unit separator `0x1f`, the delimiter of
`CARGO_ENCODED_RUSTFLAGS` (`build.rs` line 152). -/
def usep : Char := Char.ofNat 0x1f

/-- Model of `build.rs` lines 142-156 (`fn rustflags`): the compiler flags
come exclusively from the `CARGO_ENCODED_RUSTFLAGS` environment variable,
whose value is given here as an explicit `Option (List Char)`.  An empty
value yields no flags; a non-empty value is split on `usep`.  An absent
variable panics (`build.rs` line 155), modelled as `Option.none`. -/
def rustflags (encoded : Option (List Char)) : Option (List (List Char)) :=
  match encoded with
  | some a => some (if a.isEmpty then [] else a.splitOn usep)
  | Option.none => Option.none

/-- Mirror of `struct AutoCfg` (`build.rs` lines 33-39), with paths as
strings and an `id` passed explicitly instead of the atomic counter. -/
structure AutoCfg where
  out_dir : List Char
  rustc : List Char
  target : Option (List Char)
  no_std : Bool
  rustflags : List (List Char)

/-- The argument list of the `rustc` subprocess spawned by `AutoCfg::probe`
(`build.rs` lines 112-127), in the order the source pushes them: the fixed
crate-name/crate-type/out-dir/emit arguments, the optional `--target`, the
decoded rustflags each as its own argument, and the final `-`. -/
def probeArgs (ac : AutoCfg) (id : Nat) : List (List Char) :=
  ["--crate-name".data, ("probe" ++ Nat.repr id).data, "--crate-type=lib".data,
   "--out-dir".data, ac.out_dir, "--emit=llvm-ir".data]
    ++ (match ac.target with
        | some t => ["--target".data, t]
        | Option.none => [])
    ++ ac.rustflags ++ ["-".data]

/-- Model of `AutoCfg::probe` (`build.rs` lines 108-139) as seen by its
callers: the `compiler` black box receives the full text written to the
subprocess's standard input — `#![no_std]\n` first when `no_std` is set
(lines 131-133), then the probed snippet — and returns `Option.none` for a
subprocess error or `some b` where `b` is whether the exit status was
success (line 138). -/
def probeModel (compiler : String → Option Bool) (no_std : Bool)
    (code : String) : Option Bool :=
  compiler ((if no_std then "#![no_std]\n" else "") ++ code)

/-- Model of the sanity self-check in `AutoCfg::with_dir` (`build.rs` lines
95-104): probe the empty snippet with `no_std = false`; on failure retry
with `no_std = true`; if that also fails, reset `no_std` to `false` and
emit a warning.  Returns the resulting `no_std` flag and whether the
warning was printed; the check itself never aborts. -/
def selfCheck (compiler : String → Option Bool) : Bool × Bool :=
  if (probeModel compiler false "").getD false then (false, false)
  else if (probeModel compiler true "").getD false then (true, false)
  else (false, true)

/-- The feature snippet probed by `main` (`build.rs` lines 164-173). -/
def declMacroSnippet : String :=
  "\n                #![feature(decl_macro, rustc_attrs)]\n                #[rustc_macro_transparency = \"semitransparent\"]\n                pub macro m \x7b\n                    () => \x7b\x7d,\n                    () => \x7b\x7d,\n                \x7d\n            "

/-- Model of `fn main` (`build.rs` lines 159-178): run the self-check to fix
`no_std`, probe `declMacroSnippet`, take `false` on any probe error
(`unwrap_or_default`, line 174), and emit the `has_simple_decl_macro` cfg
iff the probe succeeded (lines 175-177).  Returns the list of emitted
cfgs. -/
def mainEmits (compiler : String → Option Bool) : List String :=
  let no_std := (selfCheck compiler).1
  if (probeModel compiler no_std declMacroSnippet).getD false then
    ["has_simple_decl_macro"]
  else []

/-! Concrete example inputs (the spec's scenarios A-D). -/

/-- Arms stream of `{ () => {}; }`: `()`, `=>`, `{}`, `;`. -/
def exArms : List TokenTree :=
  [.group .parenthesis [], .punct '=' .joint, .punct '>' .alone,
   .group .brace [], .punct ';' .alone]

/-- Item stream of `macro_rules! m { () => {}; }`. -/
def exItem : List TokenTree :=
  [.ident "macro_rules", .punct '!' .alone, .ident "m", .group .brace exArms]

/-- Parsed form of `exItem`. -/
def exDef : MacroDefinition := ⟨[], .alone, "m", exArms, []⟩

/-- Item stream of `fn m() {}` (scenario D, not a macro definition). -/
def exFn : List TokenTree :=
  [.ident "fn", .ident "m", .group .parenthesis [], .group .brace []]

/-- The item `exItem` followed by one trailing identifier token. -/
def exItemTrail : List TokenTree := exItem ++ [.ident "extra"]

/-- Parsed form of `exItemTrail` (same definition, one trailing token). -/
def exDefTrail : MacroDefinition := ⟨[], .alone, "m", exArms, [.ident "extra"]⟩

/-! Proof-side helper functions (decimal digits and an injective
string-to-number encoding used to instantiate the black-box hash). -/

/-- The decimal digit string of `n`, most significant digit first; reference
function for `Nat.repr`. -/
def repDigits (n : Nat) : List Char :=
  if _h : n < 10 then [Nat.digitChar n]
  else repDigits (n / 10) ++ [Nat.digitChar (n % 10)]
decreasing_by exact Nat.div_lt_self (by omega) (by omega)

/-- Inverse of `Nat.digitChar` on decimal digits. -/
def decChar (c : Char) : Nat := c.toNat - 48

/-- Decimal value of a digit string. -/
def decDigits (l : List Char) : Nat :=
  l.foldl (fun a c => 10 * a + decChar c) 0

/-- An injective `String → Nat`, used as a concrete collision-free
instantiation of the black-box 128-bit hash. -/
def encodeStr (s : String) : Nat :=
  Encodable.encode (s.data.map Char.toNat)

/-! Helper lemmas. -/

/-- A successful attribute-collection run decomposes the scanned stream: the
returned attributes extend the accumulator by a prefix of the stream made
only of `#` punctuation and bracket groups, and the stream continues with
the `macro_rules` identifier followed by the returned remainder. -/
theorem collectAttrs_reconstruct :
    ∀ acc l attrs rest, collectAttrs acc l = some (attrs, rest) →
      ∃ pre, attrs = acc ++ pre ∧ l = pre ++ .ident "macro_rules" :: rest ∧
        ∀ t ∈ pre, (∃ sp, t = .punct '#' sp) ∨ ∃ g, t = .group .bracket g := by
  intro acc l
  induction acc, l using collectAttrs.induct with
  | case1 acc rest =>
    intro attrs rest' h
    simp only [collectAttrs, if_true] at h
    obtain ⟨rfl, rfl⟩ := Prod.mk.injEq .. ▸ Option.some.inj h
    exact ⟨[], by simp, by simp, by simp⟩
  | case2 acc s rest hs =>
    intro attrs rest' h
    simp [collectAttrs, if_neg hs] at h
  | case3 acc sp g rest ih =>
    intro attrs rest' h
    rw [collectAttrs] at h
    obtain ⟨pre, h1, h2, h3⟩ := ih attrs rest' h
    refine ⟨[.punct '#' sp, .group .bracket g] ++ pre, by simpa using h1,
      by simp [h2], ?_⟩
    intro t ht
    rcases List.mem_append.1 ht with ht | ht
    · simp only [List.mem_cons, List.not_mem_nil, or_false] at ht
      rcases ht with rfl | rfl
      · exact Or.inl ⟨sp, rfl⟩
      · exact Or.inr ⟨g, rfl⟩
    · exact h3 t ht
  | case4 t x h1 h2 =>
    intro attrs rest' h
    rw [collectAttrs.eq_def] at h
    split at h
    · exact (h1 _ _ rfl).elim
    · exact (h2 _ _ _ rfl).elim
    · simp at h

/-- A successfully parsed item is exactly its collected attributes, the
keyword, the bang, the name, the brace-delimited arms, and the trailing
tokens, with the attributes made only of `#` punctuation and bracket
groups. -/
theorem parseItem_reconstruct {item : List TokenTree} {pm : MacroDefinition}
    (hp : parseItem item = some pm) :
    item = pm.attrs ++ .ident "macro_rules" :: .punct '!' pm.bangSp ::
      .ident pm.name :: .group .brace pm.arms :: pm.trailing ∧
      ∀ t ∈ pm.attrs, (∃ sp, t = .punct '#' sp) ∨ ∃ g, t = .group .bracket g := by
  rw [parseItem] at hp
  split at hp
  · next attrs sp nm arms trailing heq =>
    injection hp with hpe
    subst hpe
    obtain ⟨pre, h1, h2, h3⟩ := collectAttrs_reconstruct [] _ _ _ heq
    simp only [List.nil_append] at h1
    subst h1
    exact ⟨h2, h3⟩
  · exact Option.noConfusion hp

/-- Serialization distributes over concatenation of token streams. -/
theorem serializeTrees_append (xs ys : List TokenTree) :
    serializeTrees (xs ++ ys) = serializeTrees xs ++ serializeTrees ys := by
  induction xs with
  | nil => simp [serializeTrees]
  | cons t ts ih => simp [serializeTrees, ih, String.append_assoc]

/-- Identifier search distributes over concatenation of token streams. -/
theorem mentionsIdentList_append (s : String) (xs ys : List TokenTree) :
    mentionsIdentList s (xs ++ ys)
      = (mentionsIdentList s xs || mentionsIdentList s ys) := by
  induction xs with
  | nil => simp [mentionsIdentList]
  | cons t ts ih => simp [mentionsIdentList, ih, Bool.or_assoc]

/-- Output of the rewriter in the default-visibility path with the
capability flag set: the `#[cfg(doc)]` macros-2.0 variant with rewritten
separators, then the attributes again, `#[cfg(not(doc))]`, and the standard
low-level export. -/
theorem macro_pub_default_capable {h128 : String → Nat} {item : List TokenTree}
    {pm : MacroDefinition} (hp : parseItem item = some pm) :
    macro_pub h128 true [] item =
      pm.attrs ++ cfgDocAttrs
        ++ [.ident "pub", .ident "macro", .ident pm.name,
            .group .brace (rewriteSemis pm.arms)]
        ++ pm.attrs ++ cfgNotDocAttrs ++ macroExportAttrs
        ++ [.ident "macro_rules", .punct '!' pm.bangSp,
            macroRulesName (h128 (serializeTrees item)) pm.name,
            .group .brace pm.arms]
        ++ cfgNotDocAttrs
        ++ [.ident "pub", .ident "use",
            macroRulesName (h128 (serializeTrees item)) pm.name,
            .ident "as", .ident pm.name, .punct ';' .alone]
        ++ pm.trailing := by
  simp [macro_pub, hp]

/-- Output of the rewriter in the default-visibility path with the
capability flag unset: only the standard low-level export. -/
theorem macro_pub_default_plain {h128 : String → Nat} {item : List TokenTree}
    {pm : MacroDefinition} (hp : parseItem item = some pm) :
    macro_pub h128 false [] item =
      pm.attrs ++ macroExportAttrs
        ++ [.ident "macro_rules", .punct '!' pm.bangSp,
            macroRulesName (h128 (serializeTrees item)) pm.name,
            .group .brace pm.arms]
        ++ [.ident "pub", .ident "use",
            macroRulesName (h128 (serializeTrees item)) pm.name,
            .ident "as", .ident pm.name, .punct ';' .alone]
        ++ pm.trailing := by
  simp [macro_pub, hp]

/-- Output of the rewriter in the restricted-visibility path (non-empty
attribute argument), for either value of the capability flag: the arms are
redeclared under the original name and re-exported under `pub(<attr>)`. -/
theorem macro_pub_restricted {h128 : String → Nat} {flag : Bool}
    {attr item : List TokenTree} {pm : MacroDefinition}
    (ha : attr ≠ []) (hp : parseItem item = some pm) :
    macro_pub h128 flag attr item =
      pm.attrs
        ++ [.ident "macro_rules", .punct '!' pm.bangSp, .ident pm.name,
            .group .brace pm.arms]
        ++ [.ident "pub", .group .parenthesis attr, .ident "use",
            .ident pm.name, .ident "as", .ident pm.name, .punct ';' .alone]
        ++ pm.trailing := by
  have ha' : attr.isEmpty = false := by
    simpa [List.isEmpty_iff] using ha
  simp [macro_pub, hp, ha']

/-- Pointwise behaviour of the arm-separator rewrite: each top-level `;`
punctuation becomes `,` with spacing preserved, every other token — in
particular every nested group, taken whole with its contents — is left
untouched. -/
theorem rewriteSemis_pointwise (ts : List TokenTree) :
    List.Forall₂ (fun a b =>
      (∀ sp, a = .punct ';' sp → b = .punct ',' sp) ∧
      ((∀ sp, a ≠ .punct ';' sp) → b = a) ∧
      (∀ d g, a = .group d g → b = .group d g)) ts (rewriteSemis ts) := by
  induction ts with
  | nil => exact List.Forall₂.nil
  | cons t ts ih =>
    refine List.Forall₂.cons ?_ ih
    beta_reduce
    rcases t with s | ⟨c, sp⟩ | s | ⟨d, g⟩
    · exact ⟨fun sp h => (nomatch h), ⟨fun _ => rfl, fun d g h => (nomatch h)⟩⟩
    · by_cases hc : c = ';'
      · subst hc
        refine ⟨fun sp2 h => ?_, fun hne => (hne sp rfl).elim,
          fun d g h => (nomatch h)⟩
        cases h
        rfl
      · have hred : semiToComma (.punct c sp) = .punct c sp := by
          rw [semiToComma.eq_def]
          split
          · next heq =>
            injection heq with h1 h2
            exact absurd h1 hc
          · rfl
        refine ⟨fun sp2 h => ?_, fun _ => hred, fun d g h => (nomatch h)⟩
        injection h with h1 h2
        exact (hc h1).elim
    · exact ⟨fun sp h => (nomatch h), ⟨fun _ => rfl, fun d g h => (nomatch h)⟩⟩
    · refine ⟨fun sp h => (nomatch h), ⟨fun _ => rfl, fun d2 g2 h => ?_⟩⟩
      cases h
      rfl

/-- With enough fuel, the core of `Nat.repr` produces `repDigits` prepended
to the accumulator. -/
theorem toDigitsCore_eq_repDigits (fuel : Nat) :
    ∀ (n : Nat) (ds : List Char), n < 10 ^ (fuel + 1) →
      Nat.toDigitsCore 10 (fuel + 1) n ds = repDigits n ++ ds := by
  induction fuel with
  | zero =>
    intro n ds h
    have hn : n < 10 := by simpa using h
    have h0 : n / 10 = 0 := Nat.div_eq_of_lt hn
    rw [Nat.toDigitsCore]
    simp only [h0, if_true]
    rw [repDigits, dif_pos hn]
    simp [Nat.mod_eq_of_lt hn]
  | succ f ih =>
    intro n ds h
    by_cases h0 : n / 10 = 0
    · have hn : n < 10 := by omega
      rw [Nat.toDigitsCore]
      simp only [h0, if_true]
      rw [repDigits, dif_pos hn]
      simp [Nat.mod_eq_of_lt hn]
    · have hn : ¬n < 10 := by omega
      have hlt : n / 10 < 10 ^ (f + 1) := by
        rw [Nat.div_lt_iff_lt_mul (by norm_num : (0:Nat) < 10)]
        calc n < 10 ^ (f + 2) := h
        _ = 10 ^ (f + 1) * 10 := by ring
      rw [Nat.toDigitsCore]
      simp only [h0, if_false]
      rw [ih (n / 10) (Nat.digitChar (n % 10) :: ds) hlt]
      have hrepn : repDigits n = repDigits (n / 10) ++ [Nat.digitChar (n % 10)] := by
        rw [repDigits, dif_neg hn]
      rw [hrepn]
      simp

/-- `Nat.toDigits` in base 10 agrees with the reference digit function. -/
theorem toDigits_eq_repDigits (n : Nat) : Nat.toDigits 10 n = repDigits n := by
  have h : n < 10 ^ (n + 1) := by
    calc n < 10 ^ n := Nat.lt_pow_self (by norm_num) n
    _ ≤ 10 ^ (n + 1) := Nat.pow_le_pow_right (by norm_num) (Nat.le_succ n)
  simpa using toDigitsCore_eq_repDigits n n [] h

/-- `decChar` inverts `Nat.digitChar` on decimal digits. -/
theorem decChar_digitChar (n : Nat) (h : n < 10) :
    decChar (Nat.digitChar n) = n := by
  interval_cases n <;> rfl

/-- Folding the decimal-decoder over `repDigits n` recovers `n` on top of
the shifted accumulator. -/
theorem foldl_decChar_repDigits (n : Nat) : ∀ a : Nat,
    (repDigits n).foldl (fun a c => 10 * a + decChar c) a
      = a * 10 ^ (repDigits n).length + n := by
  induction n using Nat.strong_induction_on with
  | _ n ih =>
    intro a
    by_cases hn : n < 10
    · rw [repDigits, dif_pos hn]
      simp [List.foldl, decChar_digitChar n hn]
      omega
    · rw [repDigits, dif_neg hn]
      rw [List.foldl_append]
      have hdiv : n / 10 < n := Nat.div_lt_self (by omega) (by omega)
      rw [ih (n / 10) hdiv]
      have hmod : n % 10 < 10 := Nat.mod_lt n (by omega)
      simp only [List.foldl, decChar_digitChar (n % 10) hmod,
        List.length_append, List.length_cons, List.length_nil]
      have hpow : 10 ^ ((repDigits (n / 10)).length + (0 + 1))
          = 10 ^ (repDigits (n / 10)).length * 10 := by ring
      rw [hpow]
      have hmul : a * (10 ^ (repDigits (n / 10)).length * 10)
          = 10 * (a * 10 ^ (repDigits (n / 10)).length) := by ring
      rw [hmul]
      omega

/-- The reference digit function is injective. -/
theorem repDigits_injective : Function.Injective repDigits := by
  intro m n h
  have hm := foldl_decChar_repDigits m 0
  have hn := foldl_decChar_repDigits n 0
  rw [h] at hm
  omega

/-- Decimal printing of naturals is injective. -/
theorem natRepr_injective : Function.Injective Nat.repr := by
  intro m n h
  apply repDigits_injective
  have h2 : (Nat.toDigits 10 m).asString = (Nat.toDigits 10 n).asString := h
  rw [toDigits_eq_repDigits, toDigits_eq_repDigits] at h2
  simpa [List.asString] using congrArg String.data h2

/-- The concrete string encoding is injective (a collision-free stand-in
for the black-box hash). -/
theorem encodeStr_injective : Function.Injective encodeStr := by
  intro a b h
  have h1 : a.data.map Char.toNat = b.data.map Char.toNat :=
    Encodable.encode_injective h
  have hinj : Function.Injective Char.toNat := by
    intro c d hcd
    apply Char.ext
    exact UInt32.toNat.inj hcd
  have h2 : a.data = b.data := List.map_injective_iff.mpr hinj h1
  cases a
  cases b
  exact congrArg String.mk h2

/-- Two internal fingerprinted names for the same macro name agree only
when the fingerprints agree. -/
theorem macroRulesName_hash_inj {a b : Nat} {nm : String}
    (h : macroRulesName a nm = macroRulesName b nm) : a = b := by
  apply natRepr_injective
  injection h with hs
  have hd := congrArg String.data hs
  simp only [String.data_append] at hd
  exact String.ext (List.append_cancel_left (List.append_cancel_right
    (List.append_cancel_right hd)))

/-! Claim theorems. -/

/-- C1: for every successfully parsed macro definition with an empty
attribute argument (default visibility), if the capability flag is set the
output consists of the documentation-only redeclaration of the macro under
its original name in the alternate (macros 2.0) syntax guarded by
`#[cfg(doc)]`, and, guarded by `#[cfg(not(doc))]`, the standard low-level
export — the body redeclared under the internal fingerprinted name marked
`#[macro_export]` and `#[doc(hidden)]`, followed by a `pub use` re-export
of that internal name under the original name; if the capability flag is
unset, the output contains only the standard low-level export and no
documentation-only variant. -/
theorem claim_default_visibility_variants {h128 : String → Nat}
    {item : List TokenTree} {pm : MacroDefinition}
    (hp : parseItem item = some pm) :
    (macro_pub h128 true [] item =
      pm.attrs ++ cfgDocAttrs
        ++ [.ident "pub", .ident "macro", .ident pm.name,
            .group .brace (rewriteSemis pm.arms)]
        ++ pm.attrs ++ cfgNotDocAttrs ++ macroExportAttrs
        ++ [.ident "macro_rules", .punct '!' pm.bangSp,
            macroRulesName (h128 (serializeTrees item)) pm.name,
            .group .brace pm.arms]
        ++ cfgNotDocAttrs
        ++ [.ident "pub", .ident "use",
            macroRulesName (h128 (serializeTrees item)) pm.name,
            .ident "as", .ident pm.name, .punct ';' .alone]
        ++ pm.trailing) ∧
    (macro_pub h128 false [] item =
      pm.attrs ++ macroExportAttrs
        ++ [.ident "macro_rules", .punct '!' pm.bangSp,
            macroRulesName (h128 (serializeTrees item)) pm.name,
            .group .brace pm.arms]
        ++ [.ident "pub", .ident "use",
            macroRulesName (h128 (serializeTrees item)) pm.name,
            .ident "as", .ident pm.name, .punct ';' .alone]
        ++ pm.trailing) :=
  ⟨macro_pub_default_capable hp, macro_pub_default_plain hp⟩

/-- Witness for C1 at the concrete input `macro_rules! m { () => {}; }`. -/
theorem claim_default_visibility_variants_witness :
    (macro_pub (fun _ => 0) true [] exItem =
      exDef.attrs ++ cfgDocAttrs
        ++ [.ident "pub", .ident "macro", .ident exDef.name,
            .group .brace (rewriteSemis exDef.arms)]
        ++ exDef.attrs ++ cfgNotDocAttrs ++ macroExportAttrs
        ++ [.ident "macro_rules", .punct '!' exDef.bangSp,
            macroRulesName ((fun _ => 0) (serializeTrees exItem)) exDef.name,
            .group .brace exDef.arms]
        ++ cfgNotDocAttrs
        ++ [.ident "pub", .ident "use",
            macroRulesName ((fun _ => 0) (serializeTrees exItem)) exDef.name,
            .ident "as", .ident exDef.name, .punct ';' .alone]
        ++ exDef.trailing) ∧
    (macro_pub (fun _ => 0) false [] exItem =
      exDef.attrs ++ macroExportAttrs
        ++ [.ident "macro_rules", .punct '!' exDef.bangSp,
            macroRulesName ((fun _ => 0) (serializeTrees exItem)) exDef.name,
            .group .brace exDef.arms]
        ++ [.ident "pub", .ident "use",
            macroRulesName ((fun _ => 0) (serializeTrees exItem)) exDef.name,
            .ident "as", .ident exDef.name, .punct ';' .alone]
        ++ exDef.trailing) :=
  claim_default_visibility_variants (by rfl)

/-- C3: on every parse failure — empty input, missing `macro_rules`
keyword, a `#` not followed by a bracket group, keyword not followed by
`!`, missing name identifier, or a body not delimited by braces — the
rewriter's output is the original item token sequence unchanged with the
fixed `errorMarker` (a `compile_error!` invocation with a constant
message) appended after it. -/
theorem claim_parse_failure_roundtrip :
    (∀ (h128 : String → Nat) (flag : Bool) (attr item : List TokenTree),
        parseItem item = Option.none →
          macro_pub h128 flag attr item = item ++ errorMarker) ∧
    parseItem [] = Option.none ∧
    (∀ s rest, s ≠ "macro_rules" → parseItem (.ident s :: rest) = Option.none) ∧
    (∀ sp, parseItem [.punct '#' sp] = Option.none) ∧
    (∀ sp t rest, (∀ g, t ≠ .group .bracket g) →
        parseItem (.punct '#' sp :: t :: rest) = Option.none) ∧
    (∀ t rest, (∀ sp, t ≠ .punct '!' sp) →
        parseItem (.ident "macro_rules" :: t :: rest) = Option.none) ∧
    (∀ sp t rest, (∀ s, t ≠ .ident s) →
        parseItem (.ident "macro_rules" :: .punct '!' sp :: t :: rest)
          = Option.none) ∧
    (∀ sp nm t rest, (∀ g, t ≠ .group .brace g) →
        parseItem (.ident "macro_rules" :: .punct '!' sp :: .ident nm ::
          t :: rest) = Option.none) := by
  refine ⟨?_, rfl, ?_, fun sp => rfl, ?_, ?_, ?_, ?_⟩
  · intro h128 flag attr item h
    simp [macro_pub, h]
  · intro s rest hs
    simp [parseItem, collectAttrs, hs]
  · intro sp t rest ht
    rcases t with s | ⟨c, sp2⟩ | s | ⟨d, ts⟩
    · rfl
    · rfl
    · rfl
    · cases d
      · rfl
      · rfl
      · exact (ht ts rfl).elim
      · rfl
  · intro t rest ht
    rcases t with s | ⟨c, sp2⟩ | s | ⟨d, ts⟩
    · rfl
    · rw [parseItem]
      split
      · next attrs sp3 nm arms trailing heq =>
        rw [show collectAttrs [] (.ident "macro_rules" :: .punct c sp2 :: rest)
              = some ([], .punct c sp2 :: rest) from rfl] at heq
        simp only [Option.some.injEq, Prod.mk.injEq, List.cons.injEq,
          TokenTree.punct.injEq] at heq
        exact (ht sp2 (by rw [heq.2.1.1])).elim
      · rfl
    · rfl
    · rfl
  · intro sp t rest ht
    rcases t with s | ⟨c, sp2⟩ | s | ⟨d, ts⟩
    · exact (ht s rfl).elim
    · rfl
    · rfl
    · rfl
  · intro sp nm t rest ht
    rcases t with s | ⟨c, sp2⟩ | s | ⟨d, ts⟩
    · rfl
    · rfl
    · rfl
    · cases d
      · rfl
      · exact (ht ts rfl).elim
      · rfl
      · rfl

/-- Witness for C3 at the concrete non-macro input `fn m() {}`
(scenario D). -/
theorem claim_parse_failure_roundtrip_witness :
    macro_pub (fun _ => 0) false [] exFn = exFn ++ errorMarker :=
  claim_parse_failure_roundtrip.1 (fun _ => 0) false [] exFn (by rfl)

/-- C2: for every successfully parsed macro definition with a non-empty
attribute argument (restricted visibility), for either value of the
capability flag, the output redeclares the macro body under its original
name — no fingerprint suffix, no rename — then re-exports that same name
under `pub(<attr>)` with the attribute argument taken verbatim, and the
rewriter emits no `macro_export` marker: if neither the input item nor the
attribute argument mentions the `macro_export` identifier, then neither
does the output, at any nesting depth. -/
theorem claim_restricted_visibility {h128 : String → Nat} {flag : Bool}
    {attr item : List TokenTree} {pm : MacroDefinition}
    (ha : attr ≠ []) (hp : parseItem item = some pm) :
    (macro_pub h128 flag attr item =
      pm.attrs
        ++ [.ident "macro_rules", .punct '!' pm.bangSp, .ident pm.name,
            .group .brace pm.arms]
        ++ [.ident "pub", .group .parenthesis attr, .ident "use",
            .ident pm.name, .ident "as", .ident pm.name, .punct ';' .alone]
        ++ pm.trailing) ∧
    (mentionsIdentList "macro_export" item = false →
      mentionsIdentList "macro_export" attr = false →
      mentionsIdentList "macro_export" (macro_pub h128 flag attr item)
        = false) := by
  refine ⟨macro_pub_restricted ha hp, ?_⟩
  intro hitem hattr
  rw [(parseItem_reconstruct hp).1] at hitem
  rw [macro_pub_restricted ha hp]
  simp only [mentionsIdentList_append, mentionsIdentList, mentionsIdent,
    Bool.or_eq_false_iff] at hitem ⊢
  simp_all [mentionsIdent]

/-- Witness for C2 at the concrete input `#[macro_pub(crate)]` on
`macro_rules! m { () => {}; }` (scenario C). -/
theorem claim_restricted_visibility_witness :
    (macro_pub (fun _ => 0) false [.ident "crate"] exItem =
      exDef.attrs
        ++ [.ident "macro_rules", .punct '!' exDef.bangSp, .ident exDef.name,
            .group .brace exDef.arms]
        ++ [.ident "pub", .group .parenthesis [.ident "crate"], .ident "use",
            .ident exDef.name, .ident "as", .ident exDef.name,
            .punct ';' .alone]
        ++ exDef.trailing) ∧
    mentionsIdentList "macro_export"
      (macro_pub (fun _ => 0) false [.ident "crate"] exItem) = false :=
  ⟨(claim_restricted_visibility (by simp) (by rfl)).1,
   (claim_restricted_visibility (by simp) (by rfl)).2 (by rfl) (by rfl)⟩

/-- C10: in the default-visibility path with the capability flag set, the
collected leading attribute groups are emitted twice — once at the start,
before the documentation-only alternate-syntax declaration, and once again
before the `#[cfg(not(doc))]`-guarded standard export — whereas with the
flag unset, and in the restricted-visibility path for either flag value,
they are emitted once, at the start of the output. -/
theorem claim_attrs_emission {h128 : String → Nat} {item : List TokenTree}
    {pm : MacroDefinition} (hp : parseItem item = some pm) :
    (macro_pub h128 true [] item =
      pm.attrs
        ++ (cfgDocAttrs
            ++ [.ident "pub", .ident "macro", .ident pm.name,
                .group .brace (rewriteSemis pm.arms)])
        ++ pm.attrs
        ++ (cfgNotDocAttrs ++ macroExportAttrs
            ++ [.ident "macro_rules", .punct '!' pm.bangSp,
                macroRulesName (h128 (serializeTrees item)) pm.name,
                .group .brace pm.arms]
            ++ cfgNotDocAttrs
            ++ [.ident "pub", .ident "use",
                macroRulesName (h128 (serializeTrees item)) pm.name,
                .ident "as", .ident pm.name, .punct ';' .alone]
            ++ pm.trailing)) ∧
    (macro_pub h128 false [] item =
      pm.attrs
        ++ (macroExportAttrs
            ++ [.ident "macro_rules", .punct '!' pm.bangSp,
                macroRulesName (h128 (serializeTrees item)) pm.name,
                .group .brace pm.arms]
            ++ [.ident "pub", .ident "use",
                macroRulesName (h128 (serializeTrees item)) pm.name,
                .ident "as", .ident pm.name, .punct ';' .alone]
            ++ pm.trailing)) ∧
    (∀ (flag : Bool) (attr : List TokenTree), attr ≠ [] →
      macro_pub h128 flag attr item =
        pm.attrs
          ++ ([.ident "macro_rules", .punct '!' pm.bangSp, .ident pm.name,
               .group .brace pm.arms]
              ++ [.ident "pub", .group .parenthesis attr, .ident "use",
                  .ident pm.name, .ident "as", .ident pm.name,
                  .punct ';' .alone]
              ++ pm.trailing)) := by
  refine ⟨?_, ?_, ?_⟩
  · rw [macro_pub_default_capable hp]; simp [List.append_assoc]
  · rw [macro_pub_default_plain hp]; simp [List.append_assoc]
  · intro flag attr ha
    rw [macro_pub_restricted ha hp]; simp [List.append_assoc]

/-- C5: in the documentation-only alternate-syntax variant, the arms group
emitted is exactly `rewriteSemis` of the input arms, and that rewrite maps
every top-level `;` punctuation to `,` (spacing preserved) while leaving
every other token — including every nested group together with all deeper
tokens it contains — untouched. -/
theorem claim_arm_separator_rewrite {h128 : String → Nat}
    {item : List TokenTree} {pm : MacroDefinition}
    (hp : parseItem item = some pm) :
    (macro_pub h128 true [] item =
      pm.attrs ++ cfgDocAttrs
        ++ [.ident "pub", .ident "macro", .ident pm.name,
            .group .brace (rewriteSemis pm.arms)]
        ++ pm.attrs ++ cfgNotDocAttrs ++ macroExportAttrs
        ++ [.ident "macro_rules", .punct '!' pm.bangSp,
            macroRulesName (h128 (serializeTrees item)) pm.name,
            .group .brace pm.arms]
        ++ cfgNotDocAttrs
        ++ [.ident "pub", .ident "use",
            macroRulesName (h128 (serializeTrees item)) pm.name,
            .ident "as", .ident pm.name, .punct ';' .alone]
        ++ pm.trailing) ∧
    List.Forall₂ (fun a b =>
      (∀ sp, a = .punct ';' sp → b = .punct ',' sp) ∧
      ((∀ sp, a ≠ .punct ';' sp) → b = a) ∧
      (∀ d g, a = .group d g → b = .group d g))
      pm.arms (rewriteSemis pm.arms) :=
  ⟨macro_pub_default_capable hp, rewriteSemis_pointwise pm.arms⟩

/-- Witness for C5 at the concrete input `macro_rules! m { () => {}; }`:
the emitted doc-variant arms are the rewritten arms. -/
theorem claim_arm_separator_rewrite_witness :
    macro_pub (fun _ => 0) true [] exItem =
      exDef.attrs ++ cfgDocAttrs
        ++ [.ident "pub", .ident "macro", .ident exDef.name,
            .group .brace (rewriteSemis exDef.arms)]
        ++ exDef.attrs ++ cfgNotDocAttrs ++ macroExportAttrs
        ++ [.ident "macro_rules", .punct '!' exDef.bangSp,
            macroRulesName ((fun _ => 0) (serializeTrees exItem)) exDef.name,
            .group .brace exDef.arms]
        ++ cfgNotDocAttrs
        ++ [.ident "pub", .ident "use",
            macroRulesName ((fun _ => 0) (serializeTrees exItem)) exDef.name,
            .ident "as", .ident exDef.name, .punct ';' .alone]
        ++ exDef.trailing :=
  (claim_arm_separator_rewrite (by rfl)).1

/-- C6 counterexample: the rewriter does mutate a copy of the arms.  On
`macro_rules! m { () => {}; }` with the capability flag set and default
visibility, the output contains a brace group holding `rewriteSemis exArms`
(the documentation-variant copy of the parsed arms), and that copy is not
token-for-token identical to the parsed arms `exArms` (its `;` became
`,`). -/
theorem claim_arms_never_mutated_cex :
    parseItem exItem = some exDef ∧
    .group .brace (rewriteSemis exArms) ∈ macro_pub (fun _ => 0) true [] exItem ∧
    rewriteSemis exArms ≠ exArms := by
  refine ⟨rfl, ?_, ?_⟩
  · rw [macro_pub_default_capable (show parseItem exItem = some exDef from rfl)]
    simp [exDef]
  · intro h
    have h5 := congrArg (fun l => l.get? 4) h
    simp [exArms, rewriteSemis, semiToComma] at h5

/-- C6 amended: the standard (non-documentation) redeclaration always
carries the arms token-for-token; every top-level brace group in the output
is either that exact copy, the separator-rewritten documentation copy, or a
brace group already present among the trailing tokens; and when the
capability flag is unset or the visibility is restricted, every top-level
brace group is the exact copy or comes from the trailing tokens — no
mutated copy appears. -/
theorem claim_arms_preserved_amended {h128 : String → Nat} {flag : Bool}
    {attr item : List TokenTree} {pm : MacroDefinition}
    (hp : parseItem item = some pm) :
    (.group .brace pm.arms ∈ macro_pub h128 flag attr item) ∧
    (∀ g, .group .brace g ∈ macro_pub h128 flag attr item →
      g = pm.arms ∨ g = rewriteSemis pm.arms ∨ .group .brace g ∈ pm.trailing) ∧
    (flag = false ∨ attr ≠ [] →
      ∀ g, .group .brace g ∈ macro_pub h128 flag attr item →
        g = pm.arms ∨ .group .brace g ∈ pm.trailing) := by
  have hshape := (parseItem_reconstruct hp).2
  have hattrs : ∀ g, TokenTree.group .brace g ∈ pm.attrs → False := by
    intro g hg
    rcases hshape _ hg with ⟨sp, h⟩ | ⟨g2, h⟩ <;> simp at h
  by_cases ha : attr = []
  · subst ha
    cases flag
    · rw [macro_pub_default_plain hp]
      refine ⟨by simp [macroExportAttrs], ?_, ?_⟩
      · intro g hg
        simp [macroExportAttrs, macroRulesName] at hg
        rcases hg with hg | hg | hg
        · exact (hattrs g hg).elim
        · exact Or.inl hg
        · exact Or.inr (Or.inr hg)
      · intro _ g hg
        simp [macroExportAttrs, macroRulesName] at hg
        rcases hg with hg | hg | hg
        · exact (hattrs g hg).elim
        · exact Or.inl hg
        · exact Or.inr hg
    · rw [macro_pub_default_capable hp]
      refine ⟨by simp [macroExportAttrs, cfgDocAttrs, cfgNotDocAttrs], ?_, ?_⟩
      · intro g hg
        simp [macroExportAttrs, cfgDocAttrs, cfgNotDocAttrs,
          macroRulesName] at hg
        rcases hg with hg | hg | hg | hg | hg
        · exact (hattrs g hg).elim
        · exact Or.inr (Or.inl hg)
        · exact (hattrs g hg).elim
        · exact Or.inl hg
        · exact Or.inr (Or.inr hg)
      · rintro (h | h) g hg <;> simp at h
  · rw [macro_pub_restricted ha hp]
    refine ⟨by simp, ?_, ?_⟩
    · intro g hg
      simp at hg
      rcases hg with hg | hg | hg
      · exact (hattrs g hg).elim
      · exact Or.inl hg
      · exact Or.inr (Or.inr hg)
    · intro _ g hg
      simp at hg
      rcases hg with hg | hg | hg
      · exact (hattrs g hg).elim
      · exact Or.inl hg
      · exact Or.inr hg

/-- C9: the content fingerprint is computed over the serialization of the
entire input token sequence, trailing tokens included; hence two inputs
whose attributes, bang spacing, name and arms coincide but whose trailing
tokens serialize differently give different hash inputs, and — for a
collision-free hash — different fingerprints and different internal
names. -/
theorem claim_fingerprint_trailing {h128 : String → Nat}
    (hinj : Function.Injective h128)
    {item1 item2 : List TokenTree} {pm1 pm2 : MacroDefinition}
    (h1 : parseItem item1 = some pm1) (h2 : parseItem item2 = some pm2)
    (hattrs : pm1.attrs = pm2.attrs) (hbang : pm1.bangSp = pm2.bangSp)
    (hname : pm1.name = pm2.name) (harms : pm1.arms = pm2.arms)
    (htrail : serializeTrees pm1.trailing ≠ serializeTrees pm2.trailing) :
    h128 (serializeTrees item1) ≠ h128 (serializeTrees item2) ∧
    macroRulesName (h128 (serializeTrees item1)) pm1.name
      ≠ macroRulesName (h128 (serializeTrees item2)) pm2.name := by
  have e1 : item1 = (pm1.attrs ++ [.ident "macro_rules",
      .punct '!' pm1.bangSp, .ident pm1.name, .group .brace pm1.arms])
        ++ pm1.trailing := by
    rw [(parseItem_reconstruct h1).1]
    simp
  have e2 : item2 = (pm2.attrs ++ [.ident "macro_rules",
      .punct '!' pm2.bangSp, .ident pm2.name, .group .brace pm2.arms])
        ++ pm2.trailing := by
    rw [(parseItem_reconstruct h2).1]
    simp
  have hpre : serializeTrees (pm1.attrs ++ [.ident "macro_rules",
      .punct '!' pm1.bangSp, .ident pm1.name, .group .brace pm1.arms])
      = serializeTrees (pm2.attrs ++ [.ident "macro_rules",
      .punct '!' pm2.bangSp, .ident pm2.name, .group .brace pm2.arms]) := by
    rw [hattrs, hbang, hname, harms]
  have s1 : serializeTrees item1
      = serializeTrees (pm1.attrs ++ [.ident "macro_rules",
          .punct '!' pm1.bangSp, .ident pm1.name, .group .brace pm1.arms])
        ++ serializeTrees pm1.trailing := by
    rw [e1, serializeTrees_append]
  have s2 : serializeTrees item2
      = serializeTrees (pm2.attrs ++ [.ident "macro_rules",
          .punct '!' pm2.bangSp, .ident pm2.name, .group .brace pm2.arms])
        ++ serializeTrees pm2.trailing := by
    rw [e2, serializeTrees_append]
  have hser : serializeTrees item1 ≠ serializeTrees item2 := by
    rw [s1, s2, hpre]
    intro he
    apply htrail
    have hd := congrArg String.data he
    simp only [String.data_append] at hd
    exact String.ext (List.append_cancel_left hd)
  refine ⟨fun he => hser (hinj he), fun he => ?_⟩
  rw [hname] at he
  exact hser (hinj (macroRulesName_hash_inj he))

/-- Witness for C9: the item with no trailing tokens and the same item
followed by one extra identifier, under the concrete injective encoding. -/
theorem claim_fingerprint_trailing_witness :
    encodeStr (serializeTrees exItem) ≠ encodeStr (serializeTrees exItemTrail) ∧
    macroRulesName (encodeStr (serializeTrees exItem)) exDef.name
      ≠ macroRulesName (encodeStr (serializeTrees exItemTrail)) exDefTrail.name :=
  @claim_fingerprint_trailing encodeStr encodeStr_injective exItem exItemTrail
    exDef exDefTrail (by rfl) (by rfl) rfl rfl rfl rfl (by decide)

/-- Witness for C6 (amended) at the concrete restricted-visibility input:
the exact arms copy is in the output. -/
theorem claim_arms_preserved_amended_witness :
    .group .brace exDef.arms ∈ macro_pub (fun _ => 0) false [.ident "crate"] exItem :=
  (claim_arms_preserved_amended (by rfl)).1

/-- C4: the content fingerprint fed to the internal name is the black-box
hash of the serialization of the entire original input item, computed
before any rewriting; the internal name is the identifier
`macro_impl_<fingerprint>_<original-name>`; the name appears in the
default-visibility output for either flag value; and the internal name is
derived solely from the input content — any item with the same serialized
bytes and the same parsed name yields the same internal name. -/
theorem claim_fingerprint_internal_name {h128 : String → Nat}
    {item : List TokenTree} {pm : MacroDefinition}
    (hp : parseItem item = some pm) :
    (macroRulesName (h128 (serializeTrees item)) pm.name
      = .ident ("macro_impl_" ++ Nat.repr (h128 (serializeTrees item))
          ++ "_" ++ pm.name)) ∧
    (∀ flag : Bool, ∃ pre post, macro_pub h128 flag [] item
      = pre ++ macroRulesName (h128 (serializeTrees item)) pm.name :: post) ∧
    (∀ item2 pm2, parseItem item2 = some pm2 →
      serializeTrees item2 = serializeTrees item → pm2.name = pm.name →
      macroRulesName (h128 (serializeTrees item2)) pm2.name
        = macroRulesName (h128 (serializeTrees item)) pm.name) := by
  refine ⟨rfl, ?_, ?_⟩
  · intro flag
    cases flag
    · refine ⟨pm.attrs ++ macroExportAttrs
        ++ [.ident "macro_rules", .punct '!' pm.bangSp],
        [.group .brace pm.arms]
          ++ [.ident "pub", .ident "use",
              macroRulesName (h128 (serializeTrees item)) pm.name,
              .ident "as", .ident pm.name, .punct ';' .alone]
          ++ pm.trailing, ?_⟩
      rw [macro_pub_default_plain hp]
      simp
    · refine ⟨pm.attrs ++ cfgDocAttrs
        ++ [.ident "pub", .ident "macro", .ident pm.name,
            .group .brace (rewriteSemis pm.arms)]
        ++ pm.attrs ++ cfgNotDocAttrs ++ macroExportAttrs
        ++ [.ident "macro_rules", .punct '!' pm.bangSp],
        [.group .brace pm.arms] ++ cfgNotDocAttrs
          ++ [.ident "pub", .ident "use",
              macroRulesName (h128 (serializeTrees item)) pm.name,
              .ident "as", .ident pm.name, .punct ';' .alone]
          ++ pm.trailing, ?_⟩
      rw [macro_pub_default_capable hp]
      simp
  · intro item2 pm2 _ hser hname
    rw [hser, hname]

/-- Witness for C4 at the concrete input `macro_rules! m { () => {}; }`. -/
theorem claim_fingerprint_internal_name_witness :
    macroRulesName ((fun _ => 0) (serializeTrees exItem)) exDef.name
      = .ident ("macro_impl_" ++ Nat.repr ((fun _ => 0) (serializeTrees exItem))
          ++ "_" ++ exDef.name) ∧
    macroRulesName ((fun _ => 0) (serializeTrees exItem)) exDef.name
      = macroRulesName ((fun _ => 0) (serializeTrees exItem)) exDef.name :=
  ⟨(@claim_fingerprint_internal_name (fun _ => 0) exItem exDef (by rfl)).1,
   (@claim_fingerprint_internal_name (fun _ => 0) exItem exDef (by rfl)).2.2
     exItem exDef (by rfl) rfl rfl⟩

/-- Witness for C10 at the concrete input `macro_rules! m { () => {}; }`
with the capability flag set. -/
theorem claim_attrs_emission_witness :
    macro_pub (fun _ => 0) true [] exItem =
      exDef.attrs
        ++ (cfgDocAttrs
            ++ [.ident "pub", .ident "macro", .ident exDef.name,
                .group .brace (rewriteSemis exDef.arms)])
        ++ exDef.attrs
        ++ (cfgNotDocAttrs ++ macroExportAttrs
            ++ [.ident "macro_rules", .punct '!' exDef.bangSp,
                macroRulesName ((fun _ => 0) (serializeTrees exItem)) exDef.name,
                .group .brace exDef.arms]
            ++ cfgNotDocAttrs
            ++ [.ident "pub", .ident "use",
                macroRulesName ((fun _ => 0) (serializeTrees exItem)) exDef.name,
                .ident "as", .ident exDef.name, .punct ';' .alone]
            ++ exDef.trailing) :=
  (claim_attrs_emission (by rfl)).1

/-- C7: the prober's compiler flags come exclusively from the single
encoded environment variable: an absent variable is fatal (`Option.none`,
the panic), an empty value yields no arguments, a non-empty value is split
on the unit-separator byte `0x1f` with the fields recovered exactly as
encoded, and the decoded fields are forwarded verbatim, in order, as a
contiguous block of separate arguments of the probe subprocess. -/
theorem claim_rustflags_contract :
    rustflags Option.none = Option.none ∧
    rustflags (some []) = some [] ∧
    (∀ s : List Char, s ≠ [] → rustflags (some s) = some (s.splitOn usep)) ∧
    (∀ fields : List (List Char), fields ≠ [] → fields ≠ [[]] →
      (∀ f ∈ fields, usep ∉ f) →
      rustflags (some (List.intercalate [usep] fields)) = some fields) ∧
    (∀ (ac : AutoCfg) (id : Nat), ac.rustflags <:+: probeArgs ac id) := by
  refine ⟨rfl, rfl, ?_, ?_, ?_⟩
  · intro s hs
    simp [rustflags, List.isEmpty_iff, hs]
  · intro fields hne hne2 hx
    have hni : List.intercalate [usep] fields ≠ [] := by
      rcases fields with _ | ⟨a, rest⟩
      · exact absurd rfl hne
      · rcases rest with _ | ⟨b, t⟩
        · have haa : a ≠ [] := fun h => hne2 (by rw [h])
          simpa [List.intercalate, List.intersperse_singleton] using haa
        · simp [List.intercalate, List.intersperse_cons_cons]
    simp [rustflags, List.isEmpty_iff, hni]
    exact List.splitOn_intercalate fields usep hx hne
  · intro ac id
    rcases ac with ⟨o, r, tg, ns, fl⟩
    cases tg with
    | none =>
      refine ⟨["--crate-name".data, ("probe" ++ Nat.repr id).data,
        "--crate-type=lib".data, "--out-dir".data, o, "--emit=llvm-ir".data],
        ["-".data], ?_⟩
      simp [probeArgs]
    | some t =>
      refine ⟨["--crate-name".data, ("probe" ++ Nat.repr id).data,
        "--crate-type=lib".data, "--out-dir".data, o, "--emit=llvm-ir".data]
        ++ ["--target".data, t], ["-".data], ?_⟩
      simp [probeArgs]

/-- Witness for C7: two concrete fields joined by the unit separator are
recovered exactly. -/
theorem claim_rustflags_contract_witness :
    rustflags (some (List.intercalate [usep] ["-O".data, "--cfg x".data]))
      = some ["-O".data, "--cfg x".data] :=
  claim_rustflags_contract.2.2.2.1 ["-O".data, "--cfg x".data]
    (by simp) (by simp) (by decide)

/-- C8: a failed capability probe (subprocess error or snippet rejected)
yields the flag absent rather than an error — the build script emits
nothing unless the outer probe returns success — and the preliminary
self-check that probes the empty snippet in full-runtime then
minimal-runtime mode falls back to the full-runtime assumption with the
non-fatal warning when neither succeeds; the self-check always produces
one of its three outcomes, never an abort. -/
theorem claim_probe_failure_graceful (compiler : String → Option Bool) :
    (probeModel compiler (selfCheck compiler).1 declMacroSnippet = Option.none ∨
      probeModel compiler (selfCheck compiler).1 declMacroSnippet = some false →
        mainEmits compiler = []) ∧
    (mainEmits compiler = ["has_simple_decl_macro"] ↔
      probeModel compiler (selfCheck compiler).1 declMacroSnippet = some true) ∧
    (probeModel compiler false "" ≠ some true →
      probeModel compiler true "" ≠ some true →
      selfCheck compiler = (false, true)) ∧
    (selfCheck compiler = (false, false) ∨ selfCheck compiler = (true, false) ∨
      selfCheck compiler = (false, true)) := by
  refine ⟨?_, ?_, ?_, ?_⟩
  · rintro (h1 | h1) <;> simp [mainEmits, h1]
  · constructor
    · intro h
      rcases hq : probeModel compiler (selfCheck compiler).1 declMacroSnippet
        with _ | b
      · simp [mainEmits, hq] at h
      · cases b
        · simp [mainEmits, hq] at h
        · rfl
    · intro h
      simp [mainEmits, h]
  · intro h1 h2
    have e1 : (probeModel compiler false "").getD false = false := by
      rcases h : probeModel compiler false "" with _ | b
      · rfl
      · cases b
        · rfl
        · exact absurd h h1
    have e2 : (probeModel compiler true "").getD false = false := by
      rcases h : probeModel compiler true "" with _ | b
      · rfl
      · cases b
        · rfl
        · exact absurd h h2
    simp [selfCheck, e1, e2]
  · unfold selfCheck
    split
    · exact Or.inl rfl
    · split
      · exact Or.inr (Or.inl rfl)
      · exact Or.inr (Or.inr rfl)

/-- Witness for C8 with a compiler stub that always reports a subprocess
error: nothing is emitted and the self-check falls back with the
warning. -/
theorem claim_probe_failure_graceful_witness :
    mainEmits (fun _ => Option.none) = [] ∧
    selfCheck (fun _ => Option.none) = (false, true) :=
  ⟨(claim_probe_failure_graceful (fun _ => Option.none)).1 (Or.inl rfl),
   (claim_probe_failure_graceful (fun _ => Option.none)).2.2.1
     (fun h => (nomatch h)) (fun h => (nomatch h))⟩

end MacroPub
